import Mathlib

/-!
Verification of the smartfile client-node library (REST client, operation
poller, filesystem facade with stat cache, file proxy) against its
natural-language specification.  The definitions below are shallow
embeddings of the JavaScript sources: `src/lib/rest/client.js`,
`src/lib/rest/index.js`, `src/lib/fs/filesystem.js` and the FileProxy
module.  Machine behaviour that the claims do not touch (sockets, timers,
actual streams) is represented by explicit parameters: each embedded
operation takes the outcome of its underlying I/O as an argument and
returns the state change and callback outcome the JavaScript code would
produce.
-/

namespace SmartFile

/-! ## Path codec (src/lib/rest/client.js, normPath and encodePath) -/

/-- Mirrors `normPath` from client.js: prepend a slash when the path does
not already start with one. -/
def normPath (s : String) : String :=
  if s.data.head? = some '/' then s else ⟨'/' :: s.data⟩

/-- Characters that JavaScript `encodeURIComponent` leaves unescaped:
ASCII alphanumerics and `-_.!~*'()`. -/
def isUriUnreserved (c : Char) : Bool :=
  c.isAlpha || c.isDigit || c = '-' || c = '_' || c = '.' || c = '!' ||
    c = '~' || c = '*' || c = '\'' || c = '(' || c = ')'

/-- Uppercase hexadecimal digit for a value below 16. -/
def hexDigitChar (n : Nat) : Char :=
  if n < 10 then Char.ofNat (48 + n) else Char.ofNat (55 + n)

/-- UTF-8 bytes of a unicode scalar value, as used by `encodeURIComponent`
when escaping a character. -/
def utf8Bytes (n : Nat) : List Nat :=
  if n < 128 then [n]
  else if n < 2048 then [192 + n / 64, 128 + n % 64]
  else if n < 65536 then [224 + n / 4096, 128 + (n / 64) % 64, 128 + n % 64]
  else [240 + n / 262144, 128 + (n / 4096) % 64, 128 + (n / 64) % 64, 128 + n % 64]

/-- Percent-escape a single byte: `%XY` with uppercase hex digits. -/
def percentByte (b : Nat) : List Char :=
  ['%', hexDigitChar (b / 16), hexDigitChar (b % 16)]

/-- `encodeURIComponent` on one character: kept verbatim when unreserved,
otherwise every UTF-8 byte is percent-escaped. -/
def encChar (c : Char) : List Char :=
  if isUriUnreserved c then [c]
  else (utf8Bytes c.toNat).flatMap percentByte

/-- JavaScript `encodeURIComponent`, acting per character. -/
def encodeURIComponent (s : String) : String :=
  ⟨s.data.flatMap encChar⟩

/-- JavaScript `String.prototype.split('/')` at the character level. -/
def splitSlash : List Char → List (List Char)
  | [] => [[]]
  | c :: rest =>
    if c = '/' then [] :: splitSlash rest
    else
      match splitSlash rest with
      | [] => [[c]]
      | s :: ss => (c :: s) :: ss

/-- JavaScript `Array.prototype.join('/')` at the character level. -/
def joinSlash : List (List Char) → List Char
  | [] => []
  | [s] => s
  | s :: t :: ts => s ++ '/' :: joinSlash (t :: ts)

/-- Mirrors `encodePath` from client.js: normalize, split on `/`, encode
each segment with `encodeURIComponent`, rejoin with `/`. -/
def encodePath (s : String) : String :=
  ⟨joinSlash (((splitSlash (normPath s).data)).map (fun seg => seg.flatMap encChar))⟩

/-- Per-character action of `encodePath` after normalization: separators
are kept, every other character goes through `encodeURIComponent`. -/
def gSlash (c : Char) : List Char :=
  if c = '/' then ['/'] else encChar c

/-! ## Operation poller (requestOper in src/lib/rest/index.js and
src/lib/rest/client.js, most recent revision's constants) -/

def MIN_POLL_INTERVAL : Nat := 192

def MAX_POLL_INTERVAL : Nat := 6144

def MAX_POLL_TIMEOUT : Nat := 393216

/-- Embedded error map of a task result (`result.result.errors`).  In the
JavaScript payload this is an object mapping item paths to messages; any
present object is truthy. -/
abbrev ErrMap := List (String × String)

/-- The task result's inner `result` object. -/
structure TaskInner where
  errors : Option ErrMap
  deriving DecidableEq, Repr

/-- The `result` object of a task-status payload: status string plus the
optional inner result. -/
structure TaskResult where
  status : String
  result : Option TaskInner
  deriving DecidableEq, Repr

/-- A task-status JSON payload (`json1` in requestOper). -/
structure TaskJson where
  result : Option TaskResult
  deriving DecidableEq, Repr

/-- What the poll callback does with one task-status response.  Error
constructors carry the fields the code attaches to the surfaced `Error`:
the poll response's HTTP status and the raw payload handed to the caller's
callback.  `timeout` carries neither (the code calls back with a bare
`Error`, no statusCode and no payload): fatal and non-retryable. -/
inductive PollAction where
  | repoll (newInterval : Nat)
  | timeout
  | invalidResp (statusCode : Nat) (payload : TaskJson)
  | taskFailed (statusCode : Nat) (payload : TaskJson)
  | opErrors (statusCode : Nat) (payload : TaskJson)
  | unexpectedStatus (statusCode : Nat) (payload : TaskJson)
  | succeed (payload : TaskJson)

/-- Mirrors the guarded access `(json1.result.result) ?
json1.result.result.errors : undefined` of requestOper. -/
def errorsOf (res : TaskResult) : Option ErrMap :=
  match res.result with
  | some inner => inner.errors
  | none => none

/-- One turn of the `poll` closure in requestOper: `elapsed` is
`Date.now() - startTimeMs` at the time the response is processed,
`interval` the current `pollInterval`, `r1status` the poll response's HTTP
status, `json1` its body. -/
def handlePoll (elapsed interval r1status : Nat) (json1 : TaskJson) : PollAction :=
  match json1.result with
  | none => .invalidResp r1status json1
  | some res =>
    let errors : Option ErrMap := errorsOf res
    if res.status = "PENDING" ∨ res.status = "PROGRESS" then
      if elapsed > MAX_POLL_TIMEOUT then .timeout
      else .repoll (min (interval * 2) MAX_POLL_INTERVAL)
    else if res.status = "FAILURE" then .taskFailed r1status json1
    else if res.status = "SUCCESS" then
      if errors.isSome then .opErrors r1status json1
      else .succeed json1
    else .unexpectedStatus r1status json1

/-- One scripted task-status response: elapsed wall time when the response
is handled, its HTTP status and its JSON body. -/
structure PollResp where
  elapsed : Nat
  status : Nat
  json : TaskJson

/-- Observable trace of a polling run: how many task-status requests were
issued, the wait interval preceding each of them, and the terminal action
(none when the script ran out while the poller wanted to re-poll). -/
structure PollTrace where
  requests : Nat
  waits : List Nat
  result : Option PollAction

/-- The poll loop: before each request the poller waits `interval`; the
response dictates either a re-poll with the updated interval or a terminal
callback. -/
def pollLoop (interval : Nat) : List PollResp → PollTrace
  | [] => ⟨0, [], none⟩
  | r :: rest =>
    match handlePoll r.elapsed interval r.status r.json with
    | .repoll ni =>
      let t := pollLoop ni rest
      ⟨t.requests + 1, interval :: t.waits, t.result⟩
    | a => ⟨1, [interval], some a⟩

/-- requestOper's polling phase: the first poll is scheduled after
`MIN_POLL_INTERVAL`. -/
def requestOperPoll (script : List PollResp) : PollTrace :=
  pollLoop MIN_POLL_INTERVAL script

/-- The wait interval before the k-th task-status request (0-based): the
minimum, then doubled and capped on every re-poll. -/
def waitSeq : Nat → Nat
  | 0 => MIN_POLL_INTERVAL
  | k + 1 => min (waitSeq k * 2) MAX_POLL_INTERVAL

/-- A response observing the task still PENDING/PROGRESS, within the
total-timeout window. -/
def pendOK (r : PollResp) : Prop :=
  (∃ res, r.json.result = some res ∧
    (res.status = "PENDING" ∨ res.status = "PROGRESS")) ∧
    r.elapsed ≤ MAX_POLL_TIMEOUT

/-- A response observing terminal SUCCESS with no embedded error map. -/
def successOK (r : PollResp) : Prop :=
  ∃ res, r.json.result = some res ∧ res.status = "SUCCESS" ∧ errorsOf res = none

/-! ## Rate-limit (429) handling by Client.request's response callback
(src/lib/rest/client.js) -/

/-- The shape of one request as it reaches the wire: the method and
whether the buffered body / multipart payload was actually transmitted.
The initial emission writes `body` with `req.write(body)` and pipes
`multipart`; the 429 retry path only calls
`request(reqUrl, reqOptions, cb).end()`. -/
structure Emission where
  method : String
  bodySent : Bool
  multipartSent : Bool
  deriving DecidableEq, Repr

/-- One scripted HTTP response: status plus the parsed `Retry-After`
header in seconds, when present. -/
structure RlResp where
  status : Nat
  retryAfter : Option Nat

/-- Outcome the caller observes from the response-callback chain. -/
inductive ReqOutcome where
  | success
  | httpError (statusCode : Nat)
  | thrownThrottle (timeMs : Nat)
  deriving DecidableEq, Repr

/-- Trace of a request run: every wire emission, the waits before
retries, the throttle-counter increments, and the final outcome (none if
the script was exhausted while a retry was pending). -/
structure ReqTrace where
  emissions : List Emission
  delays : List Nat
  throttles : Nat
  outcome : Option ReqOutcome
  deriving DecidableEq, Repr

/-- Retry delay derived from the `Retry-After` header: seconds times
1000, defaulting to 1000 ms when the header is absent. -/
def retryTime (r : RlResp) : Nat :=
  match r.retryAfter with
  | some s => s * 1000
  | none => 1000

/-- The request/body configuration of a call to `Client.request`:
`hasBody` when a JSON or form body was buffered, `hasMultipart` when a
multipart payload is attached. -/
structure ReqSpec where
  method : String
  hasBody : Bool
  hasMultipart : Bool

/-- The retry condition of the 429 branch: GET and DELETE always, POST
only when the multipart payload or the buffered body is at hand. -/
def canRetry429 (spec : ReqSpec) : Bool :=
  spec.method == "GET" || spec.method == "DELETE" ||
    (spec.method == "POST" && (spec.hasMultipart || spec.hasBody))

/-- The response-callback chain `cb` of Client.request, fed one scripted
response per emission.  `withBody` records whether this emission is the
initial one (which writes the buffered body and pipes the multipart
payload); the retry emission inside the 429 branch re-issues
`request(reqUrl, reqOptions, cb).end()` without re-writing either. -/
def run429 (spec : ReqSpec) (withBody : Bool) : List RlResp → ReqTrace
  | [] => ⟨[], [], 0, none⟩
  | r :: rest =>
    let em : Emission :=
      ⟨spec.method, withBody && spec.hasBody, withBody && spec.hasMultipart⟩
    if r.status = 429 then
      if canRetry429 spec then
        let t := run429 spec false rest
        ⟨em :: t.emissions, retryTime r :: t.delays, t.throttles + 1, t.outcome⟩
      else ⟨[em], [], 1, some (.thrownThrottle (retryTime r))⟩
    else if r.status ≤ 199 ∨ r.status > 300 then ⟨[em], [], 0, some (.httpError r.status)⟩
    else ⟨[em], [], 0, some .success⟩

/-! ## Filesystem facade with stat cache (src/lib/fs/filesystem.js) -/

/-- JavaScript `String.prototype.startsWith` check, at the character
level: is the first list a prefix of the second. -/
def listPrefixB : List Char → List Char → Bool
  | [], _ => true
  | _ :: _, [] => false
  | a :: as, b :: bs => a == b && listPrefixB as bs

/-- `s.startsWith(pre)` of JavaScript. -/
def strStartsWith (s pre : String) : Bool :=
  listPrefixB pre.data s.data

/-- `s.endsWith(suf)` of JavaScript. -/
def strEndsWith (s suf : String) : Bool :=
  listPrefixB suf.data.reverse s.data.reverse

/-- A Path Info record as the REST layer returns it: the fields the
facade and cache inspect. -/
structure PathInfo where
  name : String
  path : String
  isfile : Bool
  deriving DecidableEq, Repr

/-- One stat-cache value: a positive Path Info record or the negative
not-found marker built in `stat` (an `Error` whose `statusCode` was
copied from the 404). -/
inductive CacheEntry where
  | pos (info : PathInfo)
  | neg (statusCode : Option Nat)
  deriving DecidableEq, Repr

/-- The `statCache` object: an association list of exact path strings to
entries; lookups take the first binding. -/
abbrev CacheMap := List (String × CacheEntry)

/-- `this.statCache[path]` lookup. -/
def cacheLookup (c : CacheMap) (p : String) : Option CacheEntry :=
  (c.find? (fun kv => kv.1 == p)).map (fun kv => kv.2)

/-- The `obj && obj.isfile` test of `_delCache` (an `Error` marker has no
`isfile` property, hence counts as not-a-file). -/
def entryIsFile : CacheEntry → Bool
  | .pos info => info.isfile
  | .neg _ => false

/-- The prefix used by `_delCache`'s recursive sweep:
`path.endsWith('/') ? path : path + '/'`. -/
def subtreePref (path : String) : String :=
  if strEndsWith path "/" then path else path ++ "/"

/-- Mirrors `FileSystem._delCache(path, ...levels)`: a no-op unless the
configured cache level is in `levels`; removes the binding for `path`,
and, unless the entry was a file, every binding whose key starts with the
subtree prefix. -/
def delCache (cacheLevel : Nat) (levels : List Nat) (path : String) (c : CacheMap) : CacheMap :=
  if levels.contains cacheLevel = false then c
  else if (match cacheLookup c path with
           | some e => !(entryIsFile e)
           | none => true) then
    (c.filter (fun kv => kv.1 != path)).filter
      (fun kv => !(strStartsWith kv.1 (subtreePref path)))
  else c.filter (fun kv => kv.1 != path)

/-- Mirrors `FileSystem._addCache(path, obj, ...levels)`: a no-op unless
the configured cache level is in `levels`; otherwise `statCache[path] =
obj` (the binding replaces any previous one for that key). -/
def addCache (cacheLevel : Nat) (levels : List Nat) (path : String) (e : CacheEntry)
    (c : CacheMap) : CacheMap :=
  if levels.contains cacheLevel = false then c
  else (path, e) :: c.filter (fun kv => kv.1 != path)

/-- Mirrors `FileSystem._clearCache(...levels)`. -/
def clearCache (cacheLevel : Nat) (levels : List Nat) (c : CacheMap) : CacheMap :=
  if levels.contains cacheLevel = false then c else []

/-- An error object surfaced by the REST layer.  `statusCode` is set for
non-2xx responses; `path` mirrors the JavaScript `path` property that
`FileSystem.rmdir` compares against the remove endpoint — the REST layer
(parseJson and the request callback in client.js) never assigns it. -/
structure RestError where
  statusCode : Option Nat
  path : Option String
  deriving DecidableEq, Repr

/-- The error `parseJson` builds for a non-2xx response: only
`statusCode`, `statusMessage` and `request` are assigned; no `path`
property. -/
def mkResError (statusCode : Nat) : RestError :=
  ⟨some statusCode, none⟩

/-- Facade state touched by `stat`: cache level, stat cache and the two
prometheus counters. -/
structure FSState where
  cacheLevel : Nat
  statCache : CacheMap
  hits : Nat
  misses : Nat

/-- What `stat`'s callback receives. -/
inductive StatResult where
  | ok (info : PathInfo)
  | errCached (statusCode : Option Nat)
  | errServer (e : RestError)
  deriving DecidableEq, Repr

/-- Result of one `stat` call: the updated state, the callback outcome
and the number of HTTP requests issued. -/
structure StatOut where
  state : FSState
  result : StatResult
  http : Nat

/-- Mirrors `FileSystem.stat(path)`: serve and (at levels 0/1) consume a
cached entry without any HTTP request, counting a cache hit; otherwise
count a miss, issue the `info` request (whose outcome is the `server`
argument), cache a negative marker under the caller's path on a 404 and
the positive record under `json.path` — both at level 2 only. -/
def statStep (st : FSState) (p : String) (server : Except RestError PathInfo) : StatOut :=
  match cacheLookup st.statCache p with
  | some entry =>
    let st1 : FSState :=
      { st with hits := st.hits + 1,
                statCache := delCache st.cacheLevel [0, 1] p st.statCache }
    match entry with
    | .neg sc => ⟨st1, .errCached sc, 0⟩
    | .pos info => ⟨st1, .ok info, 0⟩
  | none =>
    let st1 : FSState := { st with misses := st.misses + 1 }
    match server with
    | .error e =>
      let st2 : FSState :=
        if e.statusCode = some 404 then
          { st1 with statCache :=
              addCache st1.cacheLevel [2] p (.neg e.statusCode) st1.statCache }
        else st1
      ⟨st2, .errServer e, 1⟩
    | .ok json =>
      ⟨{ st1 with statCache :=
          addCache st1.cacheLevel [2] json.path (.pos json) st1.statCache },
        .ok json, 1⟩

/-- The forged payload rmdir/unlink hand to the callback when masking a
404. -/
def forgedSuccess : TaskJson :=
  ⟨some ⟨"SUCCESS", none⟩⟩

/-- Cache plus callback outcome of a delete-style facade call. -/
structure DelOut where
  cache : CacheMap
  error : Option RestError
  json : Option TaskJson

/-- Mirrors `FileSystem.rmdir(path)`'s result callback: `e` and `json`
are what the REST `delete` operation delivered.  The 404 masking also
requires `e.path === '/api/2/path/oper/remove/'`. -/
def rmdirStep (cacheLevel : Nat) (c : CacheMap) (p : String)
    (e : Option RestError) (json : Option TaskJson) : DelOut :=
  match e with
  | some err =>
    if err.statusCode = some 404 ∧ err.path = some "/api/2/path/oper/remove/" then
      ⟨delCache cacheLevel [0, 1, 2] p c, none, some forgedSuccess⟩
    else ⟨c, some err, json⟩
  | none => ⟨delCache cacheLevel [0, 1, 2] p c, none, json⟩

/-- Mirrors `FileSystem.unlink(path)`'s result callback: the 404 masking
only checks `e.statusCode === 404`. -/
def unlinkStep (cacheLevel : Nat) (c : CacheMap) (p : String)
    (e : Option RestError) (json : Option TaskJson) : DelOut :=
  match e with
  | some err =>
    if err.statusCode = some 404 then
      ⟨delCache cacheLevel [0, 1, 2] p c, none, some forgedSuccess⟩
    else ⟨c, some err, json⟩
  | none => ⟨delCache cacheLevel [0, 1, 2] p c, none, json⟩

/-- Cache priming of `FileSystem.mkdir`'s success callback:
`_addCache(json.path, json, 2)`. -/
def mkdirPrime (cacheLevel : Nat) (json : PathInfo) (c : CacheMap) : CacheMap :=
  addCache cacheLevel [2] json.path (.pos json) c

/-- Cache effect of `FileSystem.rename`'s success callback:
`_addCache(json.path, json, 2)` then `_delCache(src, 0, 1, 2)`. -/
def renamePrime (cacheLevel : Nat) (src : String) (json : PathInfo) (c : CacheMap) : CacheMap :=
  delCache cacheLevel [0, 1, 2] src (addCache cacheLevel [2] json.path (.pos json) c)

/-- Cache effect of one page of `FileSystem.readdirstats`: each listed
record is cached under its own `path` field at levels 1 and 2. -/
def readdirPagePrime (cacheLevel : Nat) (page : List PathInfo) (c : CacheMap) : CacheMap :=
  page.foldl (fun acc info => addCache cacheLevel [1, 2] info.path (.pos info) acc) c

/-! ## File proxy (FileProxy.read / FileProxy.write) -/

/-- `Buffer.concat([buffer], n)`: the buffer truncated, or zero-padded,
to total length `n`. -/
def bufConcatTrunc (buffer : List Nat) (n : Nat) : List Nat :=
  buffer.take n ++ List.replicate (n - buffer.length) 0

/-- Mirrors `FileProxy.read`'s callback around `fs.read`: `fsres` is the
underlying read's outcome (error, or bytes read).  A short read succeeds
with the actual count and the buffer cut down to it. -/
def proxyRead (buffer : List Nat) (len : Nat) (fsres : Except String Nat) :
    Except String (Nat × List Nat) :=
  match fsres with
  | .error e => .error e
  | .ok bytesRead =>
    if bytesRead ≠ len then .ok (bytesRead, bufConcatTrunc buffer bytesRead)
    else .ok (bytesRead, buffer)

/-- Mirrors `FileProxy.write`'s callback around `fs.write`: a write
reporting fewer bytes than `buffer.length` is turned into a local I/O
error. -/
def proxyWrite (buffer : List Nat) (_len : Nat) (fsres : Except String Nat) :
    Except String Nat :=
  match fsres with
  | .error e => .error e
  | .ok bytesWritten =>
    if bytesWritten ≠ buffer.length then .error "could not write all the bytes"
    else .ok bytesWritten

/-! ## Descriptor table (FileProxy constructor's openFd and
FileSystem.close) -/

/-- The slice of FileProxy state the descriptor table stores. -/
structure ProxyState where
  path : String
  accessType : Nat
  deriving DecidableEq, Repr

/-- Mirrors `openFd` in the FileProxy constructor:
`const fd = this.sffs.fds.length; this.sffs.fds[fd] = this` — the new
descriptor is always the next index past the end of the table. -/
def openFd (fds : List ProxyState) (p : ProxyState) : List ProxyState × Nat :=
  (fds ++ [p], fds.length)

/-- Outcome of `FileSystem.close(fd)` as far as the descriptor table is
concerned. -/
inductive CloseOut where
  | invalidFd
  | closedOk
  deriving DecidableEq, Repr

/-- Mirrors `FileSystem.close(fd)`: an unknown index yields the
`invalid fd` error; otherwise the proxy's `close` runs (upload/cleanup,
modelled externally) — and `this.fds` is never written, so the slot keeps
its proxy. -/
def fsClose (fds : List ProxyState) (fd : Nat) : List ProxyState × CloseOut :=
  match fds.get? fd with
  | none => (fds, .invalidFd)
  | some _ => (fds, .closedOk)

/-- The spec's worked cache-invalidation example: entries for `/a`
(a directory), `/a/b`, `/a/b/c` and `/ab`. -/
def exCache : CacheMap :=
  [("/a", .pos ⟨"a", "/a", false⟩),
   ("/a/b", .pos ⟨"b", "/a/b", true⟩),
   ("/a/b/c", .pos ⟨"c", "/a/b/c", true⟩),
   ("/ab", .pos ⟨"ab", "/ab", true⟩)]

/-- A one-entry cache used to evaluate the delete operations. -/
def exDelCache : CacheMap :=
  [("/foobar", .pos ⟨"foobar", "/foobar", false⟩)]

/-- A cache holding only `/a/b`, used against the trailing-slash path. -/
def exDelCacheSlash : CacheMap :=
  [("/a/b", .pos ⟨"b", "/a/b", true⟩)]

/-- A concrete file proxy used in the descriptor-table evaluations. -/
def exProxy : ProxyState :=
  ⟨"/f", 0⟩

/-- The descriptor table after opening one file. -/
def exFds : List ProxyState :=
  (openFd [] exProxy).1

/-! ## Theorems -/

theorem splitSlash_ne_nil (l : List Char) : splitSlash l ≠ [] := by
  cases l with
  | nil => simp [splitSlash]
  | cons c rest =>
    by_cases h : c = '/'
    · simp [splitSlash, h]
    · simp only [splitSlash, if_neg h]
      cases splitSlash rest <;> simp

theorem joinSlash_cons (s : List Char) (ss : List (List Char)) (h : ss ≠ []) :
    joinSlash (s :: ss) = s ++ '/' :: joinSlash ss := by
  cases ss with
  | nil => exact absurd rfl h
  | cons t ts => rfl

theorem joinSlash_map_splitSlash (f : Char → List Char) (l : List Char) :
    joinSlash ((splitSlash l).map (fun seg => seg.flatMap f)) =
      l.flatMap (fun c => if c = '/' then ['/'] else f c) := by
  induction l with
  | nil => simp [splitSlash, joinSlash]
  | cons c rest ih =>
    have hne : (splitSlash rest).map (fun seg => seg.flatMap f) ≠ [] := by
      intro hmm
      exact splitSlash_ne_nil rest (List.map_eq_nil_iff.mp hmm)
    by_cases h : c = '/'
    · subst h
      have hsp : splitSlash ('/' :: rest) = [] :: splitSlash rest := by
        simp [splitSlash]
      rw [hsp, List.map_cons, joinSlash_cons _ _ hne, ih]
      simp
    · rcases hs : splitSlash rest with _ | ⟨s, ss⟩
      · exact absurd hs (splitSlash_ne_nil rest)
      · have hsp : splitSlash (c :: rest) = (c :: s) :: ss := by
          simp [splitSlash, h, hs]
        rw [hsp, List.map_cons]
        cases ss with
        | nil =>
          have hlhs : joinSlash [(c :: s).flatMap f] = (c :: s).flatMap f := rfl
          rw [List.map_nil, hlhs]
          simp only [List.flatMap_cons, if_neg h]
          rw [← ih, hs]
          simp only [List.map_cons, List.map_nil]
          rfl
        | cons t ts =>
          rw [joinSlash_cons _ _ (by simp)]
          simp only [List.flatMap_cons, if_neg h]
          rw [← ih, hs]
          simp only [List.map_cons]
          have hrfl : joinSlash (s.flatMap f :: t.flatMap f ::
              List.map (fun seg => seg.flatMap f) ts) =
              s.flatMap f ++ '/' :: joinSlash (t.flatMap f ::
                List.map (fun seg => seg.flatMap f) ts) := rfl
          rw [hrfl]
          simp [List.append_assoc]

theorem encodePath_eq_flatMap (s : String) :
    encodePath s = ⟨(normPath s).data.flatMap gSlash⟩ := by
  unfold encodePath gSlash
  rw [joinSlash_map_splitSlash]

theorem utf8Bytes_ne_nil (n : Nat) : utf8Bytes n ≠ [] := by
  unfold utf8Bytes
  split
  · simp
  · split
    · simp
    · split <;> simp

theorem encChar_length_pos (c : Char) : 0 < (encChar c).length := by
  unfold encChar
  split
  · simp
  · rcases h : utf8Bytes c.toNat with _ | ⟨b, bs⟩
    · exact absurd h (utf8Bytes_ne_nil c.toNat)
    · simp [List.flatMap_cons, percentByte]

theorem gSlash_length_pos (c : Char) : 0 < (gSlash c).length := by
  unfold gSlash
  split
  · simp
  · exact encChar_length_pos c

theorem gSlash_percent : gSlash '%' = ['%', '2', '5'] := by decide

theorem flatMap_length_le (f : Char → List Char) (hf : ∀ c, 0 < (f c).length)
    (l : List Char) : l.length ≤ (l.flatMap f).length := by
  induction l with
  | nil => simp
  | cons c rest ih =>
    simp only [List.flatMap_cons, List.length_append, List.length_cons]
    have := hf c
    omega

theorem flatMap_length_lt (f : Char → List Char) (hf : ∀ c, 0 < (f c).length)
    (x : Char) (hx : 1 < (f x).length) (l : List Char) (hmem : x ∈ l) :
    l.length < (l.flatMap f).length := by
  induction l with
  | nil => simp at hmem
  | cons c rest ih =>
    simp only [List.flatMap_cons, List.length_append, List.length_cons]
    rcases List.mem_cons.mp hmem with h | h
    · subst h
      have := flatMap_length_le f hf rest
      omega
    · have := ih h
      have := hf c
      omega

theorem percent_mem_flatMap_gSlash (l : List Char) (h : '%' ∈ l) :
    '%' ∈ l.flatMap gSlash := by
  refine List.mem_flatMap.mpr ⟨'%', h, ?_⟩
  rw [gSlash_percent]
  simp

theorem normPath_data (s : String) : ∃ t, (normPath s).data = '/' :: t := by
  unfold normPath
  split
  · rcases hd : s.data with _ | ⟨c, t⟩
    · simp_all
    · rename_i h
      rw [hd] at h
      simp only [List.head?] at h
      exact ⟨t, by simp_all⟩
  · exact ⟨s.data, rfl⟩

theorem mem_normPath_data (s : String) (c : Char) (h : c ∈ s.data) :
    c ∈ (normPath s).data := by
  unfold normPath
  split
  · exact h
  · exact List.mem_cons_of_mem _ h

/-- C7: `encodePath` splits the normalized path on `/`, percent-encodes
every segment independently and rejoins; it matches the spec's worked
examples (each reserved character escaped exactly once per segment) and it
is not idempotent: for every path containing `%`, re-encoding the encoded
path changes it (the percent signs are double-encoded). -/
theorem encodePath_spec :
    (∀ p : String, '%' ∈ p.data → encodePath (encodePath p) ≠ encodePath p) ∧
      encodePath "/foo%bar" = "/foo%25bar" ∧
      encodePath "/foo%23bar" = "/foo%2523bar" := by
  refine ⟨?_, by decide, by decide⟩
  intro p hp
  have hA : '%' ∈ (normPath p).data := mem_normPath_data p '%' hp
  have h1 : encodePath p = ⟨(normPath p).data.flatMap gSlash⟩ := encodePath_eq_flatMap p
  -- the encoded path still contains a percent sign
  have hE1 : '%' ∈ (encodePath p).data := by
    rw [h1]
    exact percent_mem_flatMap_gSlash _ hA
  -- the encoded path starts with a slash, so normPath leaves it unchanged
  have hhead : (encodePath p).data.head? = some '/' := by
    obtain ⟨t, ht⟩ := normPath_data p
    rw [h1, ht]
    simp [List.flatMap_cons, gSlash]
  have hnorm : normPath (encodePath p) = encodePath p := by
    unfold normPath
    rw [if_pos hhead]
  have h2 : encodePath (encodePath p) = ⟨(encodePath p).data.flatMap gSlash⟩ := by
    rw [encodePath_eq_flatMap, hnorm]
  have hlt : (encodePath p).data.length < ((encodePath p).data.flatMap gSlash).length := by
    refine flatMap_length_lt gSlash gSlash_length_pos '%' ?_ _ hE1
    rw [gSlash_percent]; simp
  intro heq
  rw [h2] at heq
  have : ((encodePath p).data.flatMap gSlash).length = (encodePath p).data.length := by
    have := congrArg (fun s : String => s.data.length) heq
    simpa using this
  omega

/-- Witness for C7 at the concrete input `/foo%bar`. -/
theorem encodePath_spec_witness :
    '%' ∈ ("/foo%bar" : String).data ∧
      encodePath (encodePath "/foo%bar") ≠ encodePath "/foo%bar" :=
  ⟨by decide, encodePath_spec.1 "/foo%bar" (by decide)⟩

theorem handlePoll_pend (r : PollResp) (h : pendOK r) (interval : Nat) :
    handlePoll r.elapsed interval r.status r.json =
      .repoll (min (interval * 2) MAX_POLL_INTERVAL) := by
  obtain ⟨⟨res, hres, hst⟩, helapsed⟩ := h
  unfold handlePoll
  rw [hres]
  simp only [if_pos hst]
  rw [if_neg (by omega)]

theorem handlePoll_success (r : PollResp) (h : successOK r) (interval : Nat) :
    handlePoll r.elapsed interval r.status r.json = .succeed r.json := by
  obtain ⟨res, hres, hst, herr⟩ := h
  unfold handlePoll
  rw [hres]
  simp [hst, herr]

theorem handlePoll_timeout (r : PollResp)
    (h : ∃ res, r.json.result = some res ∧
      (res.status = "PENDING" ∨ res.status = "PROGRESS"))
    (helapsed : r.elapsed > MAX_POLL_TIMEOUT) (interval : Nat) :
    handlePoll r.elapsed interval r.status r.json = .timeout := by
  obtain ⟨res, hres, hst⟩ := h
  unfold handlePoll
  rw [hres]
  simp only [if_pos hst]
  rw [if_pos helapsed]

theorem pollLoop_pending (pends : List PollResp)
    (hp : ∀ r ∈ pends, pendOK r) (k : Nat) (s : List PollResp) :
    (pollLoop (waitSeq k) (pends ++ s)).requests =
        pends.length + (pollLoop (waitSeq (k + pends.length)) s).requests ∧
      (pollLoop (waitSeq k) (pends ++ s)).waits =
        ((List.range pends.length).map (fun j => waitSeq (k + j))) ++
          (pollLoop (waitSeq (k + pends.length)) s).waits ∧
      (pollLoop (waitSeq k) (pends ++ s)).result =
        (pollLoop (waitSeq (k + pends.length)) s).result := by
  induction pends generalizing k with
  | nil => simp
  | cons r pends ih =>
    have hh : handlePoll r.elapsed (waitSeq k) r.status r.json =
        .repoll (waitSeq (k + 1)) :=
      handlePoll_pend r (hp r (List.mem_cons_self r pends)) (waitSeq k)
    have hcons : pollLoop (waitSeq k) (r :: (pends ++ s)) =
        ⟨(pollLoop (waitSeq (k + 1)) (pends ++ s)).requests + 1,
          waitSeq k :: (pollLoop (waitSeq (k + 1)) (pends ++ s)).waits,
          (pollLoop (waitSeq (k + 1)) (pends ++ s)).result⟩ := by
      simp only [pollLoop, hh]
    obtain ⟨ih1, ih2, ih3⟩ := ih (fun x hx => hp x (List.mem_cons_of_mem r hx)) (k + 1)
    have hrange : (List.range (pends.length + 1)).map (fun j => waitSeq (k + j)) =
        waitSeq k :: (List.range pends.length).map (fun j => waitSeq (k + 1 + j)) := by
      rw [List.range_succ_eq_map, List.map_cons, List.map_map]
      refine congrArg₂ _ (by simp) ?_
      refine List.map_congr_left ?_
      intro j _
      simp only [Function.comp_apply, Nat.succ_eq_add_one]
      congr 1
      omega
    refine ⟨?_, ?_, ?_⟩
    · rw [List.cons_append, hcons]
      simp only [List.length_cons]
      rw [ih1]
      have : k + (pends.length + 1) = k + 1 + pends.length := by omega
      rw [this]
      omega
    · rw [List.cons_append, hcons]
      simp only [List.length_cons, hrange]
      rw [ih2]
      have : k + (pends.length + 1) = k + 1 + pends.length := by omega
      rw [this]
      simp
    · rw [List.cons_append, hcons]
      simp only [List.length_cons]
      rw [ih3]
      have : k + (pends.length + 1) = k + 1 + pends.length := by omega
      rw [this]

theorem waitSeq_le_max (k : Nat) : waitSeq k ≤ MAX_POLL_INTERVAL := by
  cases k with
  | zero =>
    show MIN_POLL_INTERVAL ≤ MAX_POLL_INTERVAL
    decide
  | succ k => exact Nat.min_le_right _ _

theorem waitSeq_mono (k : Nat) : waitSeq k ≤ waitSeq (k + 1) := by
  show waitSeq k ≤ min (waitSeq k * 2) MAX_POLL_INTERVAL
  exact Nat.le_min.mpr ⟨by omega, waitSeq_le_max k⟩

/-- C3: if the poller sees the task PENDING/PROGRESS `N` times (each in
time) and then a clean SUCCESS, it issues exactly `N + 1` task-status
requests whose preceding waits are `waitSeq 0, …, waitSeq N` — starting at
the minimum 192 ms, each subsequent wait the double of the previous one
capped at 6144 ms, hence non-decreasing; and if a PENDING/PROGRESS
response arrives after the 393216 ms total timeout, polling stops with the
fatal timeout error instead of issuing another poll. -/
theorem requestOper_poll_spec :
    (∀ pends final : _, (∀ r ∈ pends, pendOK r) → successOK final →
      (requestOperPoll (pends ++ [final])).requests = pends.length + 1 ∧
        (requestOperPoll (pends ++ [final])).waits =
          (List.range (pends.length + 1)).map waitSeq ∧
        (requestOperPoll (pends ++ [final])).result =
          some (.succeed final.json)) ∧
      waitSeq 0 = MIN_POLL_INTERVAL ∧
      (∀ k, waitSeq (k + 1) = min (waitSeq k * 2) MAX_POLL_INTERVAL) ∧
      (∀ k, waitSeq k ≤ waitSeq (k + 1)) ∧
      (∀ k, waitSeq k ≤ MAX_POLL_INTERVAL) ∧
      (∀ pends r rest : _, (∀ x ∈ pends, pendOK x) →
        (∃ res, r.json.result = some res ∧
          (res.status = "PENDING" ∨ res.status = "PROGRESS")) →
        r.elapsed > MAX_POLL_TIMEOUT →
        (requestOperPoll (pends ++ r :: rest)).requests = pends.length + 1 ∧
          (requestOperPoll (pends ++ r :: rest)).result = some .timeout) := by
  refine ⟨?_, rfl, fun k => rfl, waitSeq_mono, waitSeq_le_max, ?_⟩
  · intro pends final hp hf
    obtain ⟨h1, h2, h3⟩ := pollLoop_pending pends hp 0 [final]
    have hfin : pollLoop (waitSeq (0 + pends.length)) [final] =
        ⟨1, [waitSeq (0 + pends.length)], some (.succeed final.json)⟩ := by
      simp only [pollLoop, handlePoll_success final hf]
    unfold requestOperPoll
    have hmin : MIN_POLL_INTERVAL = waitSeq 0 := rfl
    rw [hmin]
    refine ⟨?_, ?_, ?_⟩
    · rw [h1, hfin]
    · rw [h2, hfin]
      rw [List.range_succ, List.map_append]
      simp only [List.map_cons, List.map_nil]
      refine congrArg₂ _ (List.map_congr_left ?_) (by simp [Nat.zero_add])
      intro j _
      simp
    · rw [h3, hfin]
  · intro pends r rest hp hr helapsed
    obtain ⟨h1, _, h3⟩ := pollLoop_pending pends hp 0 (r :: rest)
    have hfin : pollLoop (waitSeq (0 + pends.length)) (r :: rest) =
        ⟨1, [waitSeq (0 + pends.length)], some .timeout⟩ := by
      simp only [pollLoop, handlePoll_timeout r hr helapsed]
    unfold requestOperPoll
    have hmin : MIN_POLL_INTERVAL = waitSeq 0 := rfl
    rw [hmin]
    exact ⟨by rw [h1, hfin], by rw [h3, hfin]⟩

/-- Witness for C3: two PENDING observations then SUCCESS give three
requests with waits 192, 384, 768, and a late PENDING response stops
polling with the timeout error. -/
theorem requestOper_poll_spec_witness :
    (requestOperPoll
        ([⟨1000, 200, ⟨some ⟨"PENDING", none⟩⟩⟩,
          ⟨2000, 200, ⟨some ⟨"PROGRESS", none⟩⟩⟩] ++
         [⟨3000, 200, ⟨some ⟨"SUCCESS", some ⟨none⟩⟩⟩⟩])).requests = 3 ∧
      (requestOperPoll
        ([⟨1000, 200, ⟨some ⟨"PENDING", none⟩⟩⟩,
          ⟨2000, 200, ⟨some ⟨"PROGRESS", none⟩⟩⟩] ++
         [⟨3000, 200, ⟨some ⟨"SUCCESS", some ⟨none⟩⟩⟩⟩])).waits = [192, 384, 768] ∧
      (requestOperPoll
        ([] ++ ⟨400000, 200, ⟨some ⟨"PENDING", none⟩⟩⟩ :: [])).result =
        some .timeout := by
  have hmain := requestOper_poll_spec
  have hA := hmain.1
    [⟨1000, 200, ⟨some ⟨"PENDING", none⟩⟩⟩, ⟨2000, 200, ⟨some ⟨"PROGRESS", none⟩⟩⟩]
    ⟨3000, 200, ⟨some ⟨"SUCCESS", some ⟨none⟩⟩⟩⟩
    (by
      intro r hr
      simp only [List.mem_cons, List.not_mem_nil, or_false] at hr
      rcases hr with rfl | rfl
      · exact ⟨⟨⟨"PENDING", none⟩, rfl, Or.inl rfl⟩, by decide⟩
      · exact ⟨⟨⟨"PROGRESS", none⟩, rfl, Or.inr rfl⟩, by decide⟩)
    ⟨⟨"SUCCESS", some ⟨none⟩⟩, rfl, rfl, rfl⟩
  have hB := hmain.2.2.2.2.2 [] ⟨400000, 200, ⟨some ⟨"PENDING", none⟩⟩⟩ []
    (by intro x hx; cases hx)
    ⟨⟨"PENDING", none⟩, rfl, Or.inl rfl⟩
    (by decide)
  refine ⟨hA.1, ?_, hB.2⟩
  rw [hA.2.1]
  decide

/-- C1: a task that reaches SUCCESS while its result carries a non-empty
error map makes requestOper surface an error (never the success callback);
the error carries the poll response's HTTP status code and the raw poll
payload is still handed to the callback. -/
theorem requestOper_success_errors
    (elapsed interval r1status : Nat) (json1 : TaskJson) (res : TaskResult)
    (inner : TaskInner) (m : ErrMap)
    (hres : json1.result = some res) (hst : res.status = "SUCCESS")
    (hinner : res.result = some inner) (herr : inner.errors = some m)
    (_hm : m ≠ []) :
    handlePoll elapsed interval r1status json1 = .opErrors r1status json1 ∧
      ∀ j, handlePoll elapsed interval r1status json1 ≠ .succeed j := by
  have hmain : handlePoll elapsed interval r1status json1 =
      .opErrors r1status json1 := by
    unfold handlePoll
    rw [hres]
    simp [hst, errorsOf, hinner, herr]
  exact ⟨hmain, fun j hj => by rw [hmain] at hj; cases hj⟩

/-- Witness for C1: a SUCCESS payload whose error map holds one entry is
reported as a partial-failure error carrying status 200 and the payload. -/
theorem requestOper_success_errors_witness :
    handlePoll 1000 192 200 ⟨some ⟨"SUCCESS", some ⟨some [("/a", "err")]⟩⟩⟩ =
      .opErrors 200 ⟨some ⟨"SUCCESS", some ⟨some [("/a", "err")]⟩⟩⟩ :=
  (requestOper_success_errors 1000 192 200
    ⟨some ⟨"SUCCESS", some ⟨some [("/a", "err")]⟩⟩⟩
    ⟨"SUCCESS", some ⟨some [("/a", "err")]⟩⟩ ⟨some [("/a", "err")]⟩
    [("/a", "err")] rfl rfl rfl rfl (by simp)).1

/-- C6 (code evaluation): for a GET the 429 interception works as
specified — a [429 then 200] script produces exactly two identical
emissions, one throttle-counter increment, the header-derived delay
(1000 ms when `Retry-After` is absent) and a single success with no error
surfaced; a non-replayable PUT raises the throttle error carrying the
suggested wait; but for a POST whose full body was buffered the retried
emission does NOT carry the body again (`bodySent` flips to false), so
the re-issued request is not identical to the original — the failing
input of this claim. -/
theorem rateLimit_429_eval :
    run429 ⟨"GET", false, false⟩ true [⟨429, some 2⟩, ⟨200, none⟩] =
        ⟨[⟨"GET", false, false⟩, ⟨"GET", false, false⟩], [2000], 1, some .success⟩ ∧
      run429 ⟨"GET", false, false⟩ true [⟨429, none⟩, ⟨200, none⟩] =
        ⟨[⟨"GET", false, false⟩, ⟨"GET", false, false⟩], [1000], 1, some .success⟩ ∧
      run429 ⟨"PUT", false, false⟩ true [⟨429, some 3⟩] =
        ⟨[⟨"PUT", false, false⟩], [], 1, some (.thrownThrottle 3000)⟩ ∧
      run429 ⟨"POST", true, false⟩ true [⟨429, some 1⟩, ⟨200, none⟩] =
        ⟨[⟨"POST", true, false⟩, ⟨"POST", false, false⟩], [1000], 1, some .success⟩ ∧
      (run429 ⟨"POST", true, false⟩ true [⟨429, some 1⟩, ⟨200, none⟩]).emissions.get? 1 ≠
        (run429 ⟨"POST", true, false⟩ true [⟨429, some 1⟩, ⟨200, none⟩]).emissions.get? 0 := by
  refine ⟨by decide, by decide, by decide, by decide, by decide⟩

theorem cacheLookup_eq_none_iff (c : CacheMap) (k : String) :
    cacheLookup c k = none ↔ ∀ kv ∈ c, kv.1 ≠ k := by
  unfold cacheLookup
  rw [Option.map_eq_none']
  rw [List.find?_eq_none]
  constructor
  · intro h kv hm
    have := h kv hm
    simpa using this
  · intro h kv hm
    simpa using h kv hm

theorem cacheLookup_cons_self (k : String) (e : CacheEntry) (c : CacheMap) :
    cacheLookup ((k, e) :: c) k = some e := by
  unfold cacheLookup
  rw [List.find?_cons_of_pos _ (by simp)]
  rfl

theorem cacheLookup_cons_other (k q : String) (e : CacheEntry) (c : CacheMap)
    (hq : q ≠ k) :
    cacheLookup ((k, e) :: c) q = cacheLookup c q := by
  unfold cacheLookup
  rw [List.find?_cons_of_neg _ (by simp [Ne.symm hq])]

theorem cacheLookup_filter_eq (c : CacheMap) (q : String × CacheEntry → Bool)
    (k : String) (h : ∀ kv, kv.1 = k → q kv = true) :
    cacheLookup (List.filter q c) k = cacheLookup c k := by
  induction c with
  | nil => rfl
  | cons kv rest ih =>
    by_cases hk : kv.1 = k
    · rw [List.filter_cons_of_pos (h kv hk)]
      unfold cacheLookup
      rw [List.find?_cons_of_pos _ (by simp [hk]), List.find?_cons_of_pos _ (by simp [hk])]
    · by_cases hq : q kv = true
      · rw [List.filter_cons_of_pos hq]
        unfold cacheLookup
        rw [List.find?_cons_of_neg _ (by simp [hk]), List.find?_cons_of_neg _ (by simp [hk])]
        exact ih
      · rw [List.filter_cons_of_neg (by simp [hq])]
        unfold cacheLookup
        rw [List.find?_cons_of_neg _ (by simp [hk])]
        exact ih

theorem cacheLookup_filter_not_key (c : CacheMap) (q : String × CacheEntry → Bool)
    (k : String) (h : ∀ kv, kv.1 = k → q kv = false) :
    cacheLookup (List.filter q c) k = none := by
  rw [cacheLookup_eq_none_iff]
  intro kv hm hk
  have hq := (List.mem_filter.mp hm).2
  rw [h kv hk] at hq
  cases hq

theorem cacheLookup_filter_of_none (c : CacheMap) (q : String × CacheEntry → Bool)
    (k : String) (h : cacheLookup c k = none) :
    cacheLookup (List.filter q c) k = none := by
  rw [cacheLookup_eq_none_iff] at h ⊢
  intro kv hm
  exact h kv (List.mem_filter.mp hm).1

theorem addCache_lookup_self (lev : Nat) (levels : List Nat) (k : String)
    (e : CacheEntry) (c : CacheMap) (h : levels.contains lev = true) :
    cacheLookup (addCache lev levels k e c) k = some e := by
  unfold addCache
  rw [if_neg (by rw [h]; decide)]
  exact cacheLookup_cons_self k e _

theorem addCache_lookup_other (lev : Nat) (levels : List Nat) (k q : String)
    (e : CacheEntry) (c : CacheMap) (hq : q ≠ k) :
    cacheLookup (addCache lev levels k e c) q = cacheLookup c q := by
  unfold addCache
  split
  · rfl
  · rw [cacheLookup_cons_other k q e _ hq]
    exact cacheLookup_filter_eq c _ q (fun kv hk => by simp [hk, hq])

theorem delCache_skip (lev : Nat) (levels : List Nat) (p : String) (c : CacheMap)
    (h : levels.contains lev = false) :
    delCache lev levels p c = c := by
  unfold delCache
  rw [if_pos h]

theorem delCache_lookup_self (lev : Nat) (levels : List Nat) (p : String)
    (c : CacheMap) (h : levels.contains lev = true) :
    cacheLookup (delCache lev levels p c) p = none := by
  unfold delCache
  rw [if_neg (by rw [h]; decide)]
  have hbase : cacheLookup (List.filter (fun kv => kv.1 != p) c) p = none :=
    cacheLookup_filter_not_key c _ p (fun kv hk => by simp [hk])
  split
  · exact cacheLookup_filter_of_none _ _ p hbase
  · exact hbase

theorem delCache_lookup_sub (lev : Nat) (levels : List Nat) (p : String)
    (c : CacheMap) (k : String) (h : levels.contains lev = true)
    (hnf : ∀ e, cacheLookup c p = some e → entryIsFile e = false)
    (hk : strStartsWith k (subtreePref p) = true) :
    cacheLookup (delCache lev levels p c) k = none := by
  unfold delCache
  rw [if_neg (by rw [h]; decide)]
  have hrec : (match cacheLookup c p with
      | some e => !(entryIsFile e)
      | none => true) = true := by
    rcases he : cacheLookup c p with _ | e
    · rfl
    · simp [hnf e he]
  rw [if_pos hrec]
  exact cacheLookup_filter_not_key _ _ k (fun kv hkv => by simp [hkv, hk])

theorem delCache_lookup_other (lev : Nat) (levels : List Nat) (p : String)
    (c : CacheMap) (k : String) (hk1 : k ≠ p)
    (hk2 : strStartsWith k (subtreePref p) = false) :
    cacheLookup (delCache lev levels p c) k = cacheLookup c k := by
  unfold delCache
  split
  · rfl
  · have hq1 : ∀ kv : String × CacheEntry, kv.1 = k → (kv.1 != p) = true :=
      fun kv hkv => by simp [hkv, hk1]
    split
    · rw [cacheLookup_filter_eq _ _ k (fun kv hkv => by simp [hkv, hk2])]
      exact cacheLookup_filter_eq c _ k hq1
    · exact cacheLookup_filter_eq c _ k hq1

/-- C4 counterexample: the claim's prefix rule `p + "/"` is wrong for a
path that already ends in a slash.  Invalidating the directory path
`/a/` (which denotes no file) removes the entry `/a/b`, although `/a/b`
is neither `/a/` itself nor prefixed by `/a/` + `/` = `/a//`, so an
entry the claim says must stay is removed. -/
theorem delCache_trailing_slash_counterexample :
    cacheLookup exDelCacheSlash "/a/" = none ∧
      (List.contains [0, 1, 2] 1 = true) ∧
      "/a/b" ≠ "/a/" ∧
      strStartsWith "/a/b" ("/a/" ++ "/") = false ∧
      cacheLookup exDelCacheSlash "/a/b" ≠ none ∧
      cacheLookup (delCache 1 [0, 1, 2] "/a/" exDelCacheSlash) "/a/b" = none := by
  refine ⟨by decide, by decide, by decide, by decide, by decide, by decide⟩

/-- C4 (amended): when the cache level is in `levels` and the path does
not denote a cached file, `_delCache p` empties the binding of `p` itself
and of every key starting with the subtree prefix — `p + "/"`, except
that a `p` already ending in `"/"` is used as is — and leaves every other
binding unchanged. -/
theorem delCache_subtree_spec (cacheLevel : Nat) (levels : List Nat) (p : String)
    (c : CacheMap) (hlev : levels.contains cacheLevel = true)
    (hnf : ∀ e, cacheLookup c p = some e → entryIsFile e = false) :
    (∀ k, k = p ∨ strStartsWith k (subtreePref p) = true →
      cacheLookup (delCache cacheLevel levels p c) k = none) ∧
      (∀ k, k ≠ p → strStartsWith k (subtreePref p) = false →
        cacheLookup (delCache cacheLevel levels p c) k = cacheLookup c k) := by
  constructor
  · intro k hk
    rcases hk with rfl | hk
    · exact delCache_lookup_self cacheLevel levels k c hlev
    · exact delCache_lookup_sub cacheLevel levels p c k hlev hnf hk
  · intro k hk1 hk2
    exact delCache_lookup_other cacheLevel levels p c k hk1 hk2

/-- Witness for C4 on the spec's own example: invalidating the directory
`/a` removes `/a`, `/a/b`, `/a/b/c` and leaves `/ab` untouched. -/
theorem delCache_subtree_spec_witness :
    cacheLookup (delCache 1 [0, 1, 2] "/a" exCache) "/a" = none ∧
      cacheLookup (delCache 1 [0, 1, 2] "/a" exCache) "/a/b" = none ∧
      cacheLookup (delCache 1 [0, 1, 2] "/a" exCache) "/a/b/c" = none ∧
      cacheLookup (delCache 1 [0, 1, 2] "/a" exCache) "/ab" = cacheLookup exCache "/ab" := by
  have h := delCache_subtree_spec 1 [0, 1, 2] "/a" exCache (by decide)
    (fun e he => by
      rw [show cacheLookup exCache "/a" =
        some (CacheEntry.pos ⟨"a", "/a", false⟩) from by decide] at he
      injection he with he2
      rw [← he2]
      rfl)
  exact ⟨h.1 "/a" (Or.inl rfl), h.1 "/a/b" (Or.inr (by decide)),
    h.1 "/a/b/c" (Or.inr (by decide)), h.2 "/ab" (by decide) (by decide)⟩

/-- C5: a stat on a path with a (positive or negative) cache entry issues
no HTTP request, bumps the hit counter exactly once, returns the cached
record (or calls back with the cached not-found error), and consumes the
entry at cache level 0 or 1 while retaining it at level 2. -/
theorem stat_cache_hit (st : FSState) (p : String) (entry : CacheEntry)
    (server : Except RestError PathInfo)
    (h : cacheLookup st.statCache p = some entry) :
    (statStep st p server).http = 0 ∧
      (statStep st p server).state.hits = st.hits + 1 ∧
      (statStep st p server).state.misses = st.misses ∧
      (statStep st p server).result =
        (match entry with
          | .pos i => StatResult.ok i
          | .neg sc => StatResult.errCached sc) ∧
      ((st.cacheLevel = 0 ∨ st.cacheLevel = 1) →
        cacheLookup (statStep st p server).state.statCache p = none) ∧
      (st.cacheLevel = 2 →
        cacheLookup (statStep st p server).state.statCache p = some entry) := by
  cases entry with
  | pos info =>
    simp only [statStep, h]
    refine ⟨trivial, trivial, trivial, trivial, ?_, ?_⟩
    · intro hl
      refine delCache_lookup_self st.cacheLevel [0, 1] p st.statCache ?_
      rcases hl with hl | hl <;> rw [hl] <;> decide
    · intro hl
      rw [delCache_skip st.cacheLevel [0, 1] p st.statCache (by rw [hl]; decide)]
      exact h
  | neg sc =>
    simp only [statStep, h]
    refine ⟨trivial, trivial, trivial, trivial, ?_, ?_⟩
    · intro hl
      refine delCache_lookup_self st.cacheLevel [0, 1] p st.statCache ?_
      rcases hl with hl | hl <;> rw [hl] <;> decide
    · intro hl
      rw [delCache_skip st.cacheLevel [0, 1] p st.statCache (by rw [hl]; decide)]
      exact h

/-- Witness for C5: at level 1 the hit consumes the entry, at level 2 a
hit leaves it in place; no HTTP request and one hit tick either way. -/
theorem stat_cache_hit_witness :
    (statStep ⟨1, exDelCache, 5, 7⟩ "/foobar" (.ok ⟨"x", "/x", true⟩)).http = 0 ∧
      (statStep ⟨1, exDelCache, 5, 7⟩ "/foobar" (.ok ⟨"x", "/x", true⟩)).state.hits = 6 ∧
      (statStep ⟨1, exDelCache, 5, 7⟩ "/foobar" (.ok ⟨"x", "/x", true⟩)).result =
        .ok ⟨"foobar", "/foobar", false⟩ ∧
      cacheLookup (statStep ⟨1, exDelCache, 5, 7⟩ "/foobar"
        (.ok ⟨"x", "/x", true⟩)).state.statCache "/foobar" = none ∧
      cacheLookup (statStep ⟨2, exDelCache, 5, 7⟩ "/foobar"
        (.ok ⟨"x", "/x", true⟩)).state.statCache "/foobar" =
        some (.pos ⟨"foobar", "/foobar", false⟩) := by
  have h1 := stat_cache_hit ⟨1, exDelCache, 5, 7⟩ "/foobar"
    (.pos ⟨"foobar", "/foobar", false⟩) (.ok ⟨"x", "/x", true⟩) (by decide)
  have h2 := stat_cache_hit ⟨2, exDelCache, 5, 7⟩ "/foobar"
    (.pos ⟨"foobar", "/foobar", false⟩) (.ok ⟨"x", "/x", true⟩) (by decide)
  exact ⟨h1.1, h1.2.1, h1.2.2.2.1, h1.2.2.2.2.1 (Or.inr rfl), h2.2.2.2.2.2 rfl⟩

/-- C2 (code evaluation at the failing input): a 404 from the delete
endpoints, as the REST layer actually constructs it (no `path` property).
`unlink` masks it — no error, forged SUCCESS payload, cache invalidated —
but `rmdir`'s masking guard compares the never-assigned `e.path` against
the remove endpoint, so rmdir propagates the 404 and skips the cache
invalidation, contradicting the spec and the repo's own test
"can delete a missing directory". -/
theorem idempotent_delete_eval :
    (unlinkStep 1 exDelCache "/foobar" (some (mkResError 404)) none).error = none ∧
      (unlinkStep 1 exDelCache "/foobar" (some (mkResError 404)) none).json =
        some forgedSuccess ∧
      cacheLookup (unlinkStep 1 exDelCache "/foobar"
        (some (mkResError 404)) none).cache "/foobar" = none ∧
      (rmdirStep 1 exDelCache "/foobar" (some (mkResError 404)) none).error =
        some (mkResError 404) ∧
      (rmdirStep 1 exDelCache "/foobar" (some (mkResError 404)) none).json = none ∧
      cacheLookup (rmdirStep 1 exDelCache "/foobar"
        (some (mkResError 404)) none).cache "/foobar" =
        some (.pos ⟨"foobar", "/foobar", false⟩) ∧
      (∀ sc : Nat, (mkResError sc).path = none) :=
  ⟨by decide, by decide, by decide, by decide, by decide, by decide, fun _ => rfl⟩

/-- C8: a short read succeeds with the actual byte count and the buffer
truncated to it; a short write is promoted to the fatal local I/O error
(the buffer bound reflects `fs.write`'s requirement that
`offset + length` not exceed the buffer). -/
theorem proxy_short_read_write :
    (∀ (buffer : List Nat) (len n : Nat), n < len → n ≤ buffer.length →
      proxyRead buffer len (.ok n) = .ok (n, buffer.take n)) ∧
      (∀ (buffer : List Nat) (len n : Nat), n < len → len ≤ buffer.length →
        proxyWrite buffer len (.ok n) = .error "could not write all the bytes") := by
  constructor
  · intro buffer len n h1 h2
    simp only [proxyRead]
    rw [if_pos (by omega : n ≠ len)]
    unfold bufConcatTrunc
    rw [Nat.sub_eq_zero_of_le h2]
    simp
  · intro buffer len n h1 h2
    simp only [proxyWrite]
    rw [if_pos (by omega : n ≠ buffer.length)]

/-- Witness for C8: reading 2 of 4 requested bytes succeeds with count 2
and the 2-byte buffer; writing 2 of 4 requested bytes errors. -/
theorem proxy_short_read_write_witness :
    proxyRead [1, 2, 3, 4] 4 (.ok 2) = .ok (2, [1, 2]) ∧
      proxyWrite [1, 2, 3, 4] 4 (.ok 2) = .error "could not write all the bytes" := by
  constructor
  · have h := proxy_short_read_write.1 [1, 2, 3, 4] 4 2 (by decide) (by decide)
    simpa using h
  · exact proxy_short_read_write.2 [1, 2, 3, 4] 4 2 (by decide) (by decide)

/-- C9 counterexample: after closing descriptor 0 the table slot still
holds the proxy, and a second `close(0)` succeeds instead of failing with
the invalid-descriptor error the claim requires. -/
theorem close_slot_counterexample :
    (fsClose exFds 0).2 = .closedOk ∧
      (fsClose exFds 0).1 = exFds ∧
      (fsClose exFds 0).1.get? 0 = some exProxy ∧
      (fsClose (fsClose exFds 0).1 0).2 = .closedOk ∧
      (fsClose (fsClose exFds 0).1 0).2 ≠ .invalidFd := by
  refine ⟨by decide, by decide, by decide, by decide, by decide⟩

/-- C9 (amended): `close(fd)` errors with the invalid-descriptor error
exactly for indices that were never allocated; on a valid descriptor it
runs the proxy's close but never clears the table slot, so repeated
closes (and other descriptor operations) keep finding the proxy; `open`
allocates every new descriptor at index `fds.length` (append-only) and
never reuses or disturbs any existing slot. -/
theorem fd_table_spec :
    (∀ (fds : List ProxyState) (fd : Nat), fds.get? fd = none →
      fsClose fds fd = (fds, .invalidFd)) ∧
      (∀ (fds : List ProxyState) (fd : Nat) (pr : ProxyState), fds.get? fd = some pr →
        fsClose fds fd = (fds, .closedOk)) ∧
      (∀ (fds : List ProxyState) (p : ProxyState),
        (openFd fds p).2 = fds.length ∧
          (openFd fds p).1.get? fds.length = some p ∧
          (∀ i, i < fds.length → (openFd fds p).1.get? i = fds.get? i)) := by
  refine ⟨?_, ?_, ?_⟩
  · intro fds fd h
    unfold fsClose
    rw [h]
  · intro fds fd pr h
    unfold fsClose
    rw [h]
  · intro fds p
    refine ⟨rfl, ?_, ?_⟩
    · unfold openFd
      rw [List.get?_append_right (Nat.le_refl _)]
      simp
    · intro i hi
      unfold openFd
      exact List.get?_append hi

/-- Witness for C9 (amended) at concrete inputs. -/
theorem fd_table_spec_witness :
    fsClose [] 0 = ([], .invalidFd) ∧
      fsClose exFds 0 = (exFds, .closedOk) ∧
      (openFd [] exProxy).2 = 0 ∧
      (openFd [] exProxy).1.get? 0 = some exProxy :=
  ⟨fd_table_spec.1 [] 0 (by decide),
    fd_table_spec.2.1 exFds 0 exProxy (by decide),
    (fd_table_spec.2.2 [] exProxy).1,
    (fd_table_spec.2.2 [] exProxy).2.1⟩

theorem readdirPagePrime_other (lev : Nat) (post : List PathInfo) (c : CacheMap)
    (k : String) (h : ∀ j ∈ post, j.path ≠ k) :
    cacheLookup (readdirPagePrime lev post c) k = cacheLookup c k := by
  induction post generalizing c with
  | nil => rfl
  | cons j post ih =>
    unfold readdirPagePrime
    rw [List.foldl_cons]
    have hstep := addCache_lookup_other lev [1, 2] j.path k (.pos j) c
      (fun hk => h j (List.mem_cons_self j post) hk.symm)
    calc cacheLookup (List.foldl
          (fun acc info => addCache lev [1, 2] info.path (.pos info) acc)
          (addCache lev [1, 2] j.path (.pos j) c) post) k
        = cacheLookup (addCache lev [1, 2] j.path (.pos j) c) k :=
          ih _ (fun x hx => h x (List.mem_cons_of_mem j hx))
      _ = cacheLookup c k := hstep

/-- C10: positive cache entries are keyed by the server-returned
`json.path`, not the caller's argument.  A level-2 `stat p` whose server
record carries a different `path` caches under that server path, leaves
no entry under `p`, and a second `stat p` misses again and issues another
HTTP request; `mkdir` primes only the key `json.path`; `rename` primes
`json.path`; a `readdirstats` page caches each row under its own `path`
field. -/
theorem cache_keyed_by_server_path :
    (∀ (st : FSState) (p : String) (info : PathInfo)
        (server2 : Except RestError PathInfo),
      st.cacheLevel = 2 → cacheLookup st.statCache p = none → info.path ≠ p →
      (statStep st p (.ok info)).http = 1 ∧
        cacheLookup (statStep st p (.ok info)).state.statCache info.path =
          some (.pos info) ∧
        cacheLookup (statStep st p (.ok info)).state.statCache p = none ∧
        (statStep (statStep st p (.ok info)).state p server2).http = 1) ∧
      (∀ (json : PathInfo) (c : CacheMap) (q : String),
        cacheLookup (mkdirPrime 2 json c) json.path = some (.pos json) ∧
          (q ≠ json.path → cacheLookup (mkdirPrime 2 json c) q = cacheLookup c q)) ∧
      (∀ (src : String) (json : PathInfo) (c : CacheMap),
        json.path ≠ src → strStartsWith json.path (subtreePref src) = false →
        cacheLookup (renamePrime 2 src json c) json.path = some (.pos json)) ∧
      (∀ (lev : Nat) (c : CacheMap) (pre post : List PathInfo) (info : PathInfo),
        (lev = 1 ∨ lev = 2) → (∀ j ∈ post, j.path ≠ info.path) →
        cacheLookup (readdirPagePrime lev (pre ++ info :: post) c) info.path =
          some (.pos info)) := by
  refine ⟨?_, ?_, ?_, ?_⟩
  · intro st p info server2 hlev hnone hne
    simp only [statStep, hnone]
    have hcache : cacheLookup (addCache st.cacheLevel [2] info.path
        (.pos info) st.statCache) info.path = some (.pos info) := by
      refine addCache_lookup_self st.cacheLevel [2] info.path (.pos info)
        st.statCache ?_
      rw [hlev]
      decide
    have hmiss : cacheLookup (addCache st.cacheLevel [2] info.path
        (.pos info) st.statCache) p = none := by
      rw [addCache_lookup_other st.cacheLevel [2] info.path p (.pos info)
        st.statCache (Ne.symm hne)]
      exact hnone
    refine ⟨trivial, hcache, hmiss, ?_⟩
    simp only [statStep, hmiss]
    cases server2 with
    | error e =>
      by_cases h404 : e.statusCode = some 404 <;> simp [h404]
    | ok j => rfl
  · intro json c q
    constructor
    · exact addCache_lookup_self 2 [2] json.path (.pos json) c (by decide)
    · intro hq
      exact addCache_lookup_other 2 [2] json.path q (.pos json) c hq
  · intro src json c h1 h2
    unfold renamePrime
    rw [delCache_lookup_other 2 [0, 1, 2] src _ json.path h1 h2]
    exact addCache_lookup_self 2 [2] json.path (.pos json) c (by decide)
  · intro lev c pre post info hlev hpost
    unfold readdirPagePrime
    rw [List.foldl_append]
    have hfold : cacheLookup (List.foldl
        (fun acc i => addCache lev [1, 2] i.path (.pos i) acc)
        (addCache lev [1, 2] info.path (.pos info)
          (List.foldl (fun acc i => addCache lev [1, 2] i.path (.pos i) acc) c pre))
        post) info.path =
        cacheLookup (addCache lev [1, 2] info.path (.pos info)
          (List.foldl (fun acc i => addCache lev [1, 2] i.path (.pos i) acc) c pre))
          info.path := by
      have := readdirPagePrime_other lev post
        (addCache lev [1, 2] info.path (.pos info)
          (List.foldl (fun acc i => addCache lev [1, 2] i.path (.pos i) acc) c pre))
        info.path hpost
      simpa [readdirPagePrime] using this
    rw [List.foldl_cons]
    rw [hfold]
    refine addCache_lookup_self lev [1, 2] info.path (.pos info) _ ?_
    rcases hlev with rfl | rfl <;> decide

/-- Witness for C10 at a concrete input: the caller stats `foo` (no
leading slash); the server record's path is `/foo`; the entry lands under
`/foo` only and a second `stat foo` misses and issues HTTP again. -/
theorem cache_keyed_by_server_path_witness :
    (statStep ⟨2, [], 0, 0⟩ "foo" (.ok ⟨"foo", "/foo", true⟩)).http = 1 ∧
      cacheLookup (statStep ⟨2, [], 0, 0⟩ "foo"
        (.ok ⟨"foo", "/foo", true⟩)).state.statCache "/foo" =
        some (.pos ⟨"foo", "/foo", true⟩) ∧
      cacheLookup (statStep ⟨2, [], 0, 0⟩ "foo"
        (.ok ⟨"foo", "/foo", true⟩)).state.statCache "foo" = none ∧
      (statStep (statStep ⟨2, [], 0, 0⟩ "foo"
        (.ok ⟨"foo", "/foo", true⟩)).state "foo" (.ok ⟨"foo", "/foo", true⟩)).http = 1 := by
  have h := cache_keyed_by_server_path.1 ⟨2, [], 0, 0⟩ "foo" ⟨"foo", "/foo", true⟩
    (.ok ⟨"foo", "/foo", true⟩) rfl (by decide) (by decide)
  exact ⟨h.1, h.2.1, h.2.2.1, h.2.2.2⟩

end SmartFile

